/-
Verification of the QuasisPycies diversity-index module (quasispycies.py).

The Python source is shallowly embedded: text is modelled as List Char,
Python int as Nat, Python float arithmetic as exact Rat (or Real where the
source calls math.log), and Python exceptions as an explicit error type in
Except results.  Python round(x, k) is modelled as round-half-up at k decimal
places, which agrees with CPython on every value arising in this development
(none of them is a representation-exact tie).
-/
import Mathlib

namespace QuasisPycies

/-- Python runtime exceptions that the embedded code can raise, plus the
DegeneratePosition error kind that the specification asks for (the Python
source never raises it; it is included so that distinguishability is
statable). -/
inductive PyError where
  | zeroDivisionError
  | attributeError
  | valueError
  | indexError
  | degeneratePosition
deriving DecidableEq, Repr

/-- Results of fallible embedded code can be compared by decide. -/
instance {ε α : Type} [DecidableEq ε] [DecidableEq α] : DecidableEq (Except ε α)
  | .ok a, .ok b =>
    if h : a = b then .isTrue (by rw [h]) else .isFalse (by intro hh; cases hh; exact h rfl)
  | .ok _, .error _ => .isFalse (by intro hh; cases hh)
  | .error _, .ok _ => .isFalse (by intro hh; cases hh)
  | .error e, .error f =>
    if h : e = f then .isTrue (by rw [h]) else .isFalse (by intro hh; cases hh; exact h rfl)

/-- Model of Python round(q, k): round half up at k decimal places. -/
def pyRound (k : ℕ) (q : ℚ) : ℚ :=
  ((⌊q * 10 ^ k + 1 / 2⌋ : ℤ) : ℚ) / 10 ^ k

/-- Value of a non-empty string of decimal digits, as int() computes it. -/
def natOfDigits (ds : List Char) : ℕ :=
  ds.foldl (fun a c => 10 * a + (c.toNat - '0'.toNat)) 0

/-- Smallest k with den dividing 10 ^ k (capped at 30); the denominators in
this development are all powers of ten. -/
def decPow (den : ℕ) : ℕ :=
  ((List.range 31).find? (fun k => decide (den ∣ 10 ^ k))).getD 30

/-- Model of Python str() on a non-negative float that is an exact decimal:
digits, a dot, and at least one fractional digit (str(90.0) is the text
90.0). -/
def pyFloatStr (q : ℚ) : List Char :=
  let k := max (decPow q.den) 1
  let scaled := (q.num * (10 : ℤ) ^ k / (q.den : ℤ)).toNat
  let s := Nat.toDigits 10 scaled
  let s := if s.length ≤ k then List.replicate (k + 1 - s.length) '0' ++ s else s
  s.take (s.length - k) ++ ('.' :: s.drop (s.length - k))

/-- Model of str.upper(). -/
def upperStr (l : List Char) : List Char := l.map Char.toUpper

/-- Model of str.rstrip(): drop trailing whitespace. -/
def rstrip (l : List Char) : List Char :=
  (l.reverse.dropWhile (fun c => c.isWhitespace)).reverse

/-- Model of line.startswith used on readlines output (lines are never
empty, so line[0] in the source is the same test). -/
def startsGt (l : List Char) : Bool := l.head? = some '>'

/-- One entry of Clusters.dict_fasta: the key, and the value list
[sequence, percentage, number of reads]. -/
structure ClusterRecord where
  name : List Char
  sequence : List Char
  percentage : ℚ
  read_count : ℕ
deriving DecidableEq, Repr

/-- In-memory state built by Clusters.__init__: the number_reads and
percentages lists (one entry per header line, in file order) and the
dict_fasta items (records, in insertion order, later duplicate names
overwriting earlier values). -/
structure ClustersModel where
  number_reads : List ℕ
  percentages : List ℚ
  records : List ClusterRecord
deriving DecidableEq, Repr

/-- The literal text of the size annotation the parser searches for. -/
def sizeTag : List Char := [';', 's', 'i', 'z', 'e', '=']

/-- Model of re.search of the pattern pieces semicolon-s-i-z-e-equals
followed by one or more digits: leftmost match, returning the match start
index and the int() value of the (maximal) digit group. -/
def findSize : List Char → ℕ → Option (ℕ × ℕ)
  | [], _ => none
  | c :: rest, i =>
    let l := c :: rest
    let ds := (l.drop 6).takeWhile Char.isDigit
    if sizeTag.isPrefixOf l ∧ ds ≠ [] then some (i, natOfDigits ds)
    else findSize rest (i + 1)

/-- Backtracking helper for the percentage pattern: with the first digit
group and the any-character already fixed, try the second digit group at
length k, k-1, ..., 1, demanding a percent sign right after it. -/
def tryFrac (d1 : List Char) (c : Char) (rest2 : List Char) :
    ℕ → Option (List Char × Char × List Char)
  | 0 => none
  | k + 1 =>
    if (rest2.drop (k + 1)).head? = some '%' then some (d1, c, rest2.take (k + 1))
    else tryFrac d1 c rest2 k

/-- Backtracking helper: try the first digit group at length k, k-1, ..., 1
(the regex engine shrinks a greedy group from the right), then one arbitrary
character, then the second digit group. -/
def tryIntPart (l : List Char) : ℕ → Option (List Char × Char × List Char)
  | 0 => none
  | k + 1 =>
    (match l.drop (k + 1) with
     | c :: rest2 => tryFrac (l.take (k + 1)) c rest2 ((rest2.takeWhile Char.isDigit).length)
     | [] => none).orElse
    (fun _ => tryIntPart l k)

/-- Model of re.search of the percentage pattern: one or more digits, any
one character (the dot in the pattern is unescaped), one or more digits, a
percent sign; leftmost match with greedy backtracking, returning the three
group pieces. -/
def findPct : List Char → Option (List Char × Char × List Char)
  | [] => none
  | c :: rest =>
    ((tryIntPart (c :: rest) ((c :: rest).takeWhile Char.isDigit).length).orElse
      (fun _ => findPct rest))

/-- Model of float() applied to the matched percentage group: succeeds only
when the middle character is an actual dot, as in the well-formed inputs. -/
def floatOfPct (d1 : List Char) (c : Char) (d2 : List Char) : Except PyError ℚ :=
  if c = '.' then
    .ok ((natOfDigits d1 : ℚ) + (natOfDigits d2 : ℚ) / 10 ^ d2.length)
  else .error .valueError

/-- One parsed header per header line, in file order (duplicates retained):
this is the loop body of Clusters.__init__.  The size search failing raises
AttributeError (None.group), as does a failing percentage search; a header
on the last line raises IndexError on the sequence lookup. -/
def parseEntries : List (List Char) → Except PyError (List ClusterRecord)
  | [] => .ok []
  | l :: rest =>
    if startsGt l then
      match findSize l 0 with
      | none => .error .attributeError
      | some (st, n) =>
        match findPct l with
        | none => .error .attributeError
        | some (d1, c, d2) =>
          match floatOfPct d1 c d2 with
          | .error e => .error e
          | .ok pct =>
            match rest.head? with
            | none => .error .indexError
            | some seq =>
              match parseEntries rest with
              | .error e => .error e
              | .ok es => .ok (ClusterRecord.mk ((l.take st).drop 1) seq pct n :: es)
    else parseEntries rest

/-- Python dict assignment keyed by cluster name: overwrite in place when
the key exists, append otherwise. -/
def pyInsertRec (r : ClusterRecord) : List ClusterRecord → List ClusterRecord
  | [] => [r]
  | x :: xs => if x.name = r.name then r :: xs else x :: pyInsertRec r xs

/-- Clusters.__init__ on the lines of the fasta file. -/
def clustersOfLines (lines : List (List Char)) : Except PyError ClustersModel :=
  match parseEntries lines with
  | .error e => .error e
  | .ok es =>
    .ok (ClustersModel.mk (es.map (fun r => r.read_count)) (es.map (fun r => r.percentage))
      (es.foldl (fun d r => pyInsertRec r d) []))

/-- The exact (pre-rounding) Simpson sum D accumulated by the loop shared
by the three Simpson methods. -/
def simpsons_D (c : ClustersModel) : ℚ :=
  (c.number_reads.map (fun (e : ℕ) => ((e : ℚ) / (c.number_reads.sum : ℚ)) ^ 2)).sum

/-- Clusters.simpsons_index: the division inside the loop raises
ZeroDivisionError when the list is non-empty with zero total. -/
def simpsons_index (c : ClustersModel) : Except PyError ℚ :=
  if c.number_reads ≠ [] ∧ c.number_reads.sum = 0 then .error .zeroDivisionError
  else .ok (pyRound 2 (simpsons_D c))

/-- Clusters.simpsons_index_of_diversity. -/
def simpsons_index_of_diversity (c : ClustersModel) : Except PyError ℚ :=
  if c.number_reads ≠ [] ∧ c.number_reads.sum = 0 then .error .zeroDivisionError
  else .ok (pyRound 2 (1 - simpsons_D c))

/-- Clusters.simpsons_reciprocal_index: the final 1/D raises
ZeroDivisionError when D is zero (in particular on an empty collection). -/
def simpsons_reciprocal_index (c : ClustersModel) : Except PyError ℚ :=
  if c.number_reads ≠ [] ∧ c.number_reads.sum = 0 then .error .zeroDivisionError
  else if simpsons_D c = 0 then .error .zeroDivisionError
  else .ok (pyRound 2 (1 / simpsons_D c))

/-- Round half up at k decimal places over the reals, for the entropy value
the source rounds with round(S, 3). -/
noncomputable def pyRoundR (k : ℕ) (x : ℝ) : ℝ :=
  ((⌊x * 10 ^ k + 1 / 2⌋ : ℤ) : ℝ) / 10 ^ k

/-- Clusters.shannon_entropy: filter dict_fasta by percentage at or above
the cutoff, sum the sizes, accumulate p times ln p, and normalize by ln of
the summed sizes.  Error cases in source order: the in-loop division by a
zero total (non-empty selection), math.log of a zero proportion or of a
zero total (ValueError), and the final division by ln 1 when the total is
one. -/
noncomputable def shannon_entropy (c : ClustersModel) (minimun_perc : ℚ) :
    Except PyError ℝ :=
  let rs := c.records.filter (fun r => minimun_perc ≤ r.percentage)
  let N : ℕ := (rs.map (fun r => r.read_count)).sum
  if rs ≠ [] ∧ N = 0 then .error .zeroDivisionError
  else if rs.any (fun r => r.read_count = 0) then .error .valueError
  else if N = 0 then .error .valueError
  else if N = 1 then .error .zeroDivisionError
  else
    .ok (pyRoundR 3
      (-(((rs.map (fun r => ((r.read_count : ℝ) / (N : ℝ)) *
            Real.log ((r.read_count : ℝ) / (N : ℝ)))).sum) / Real.log (N : ℝ))))

/-- Clusters.clusters_object_to_fasta: for each dict item it writes a
header made of the key and the percentage value twice (value[1] both
times, joined by the literal text underscore-s-i-z-e-equals and an
underscore), then the stored sequence line. -/
def clusters_object_to_fasta (c : ClustersModel) : List (List Char) :=
  c.records.foldr
    (fun r acc =>
      ('>' :: r.name ++ ['_', 's', 'i', 'z', 'e', '='] ++ pyFloatStr r.percentage ++
        ['_'] ++ pyFloatStr r.percentage ++ ['%', '\n']) :: r.sequence :: acc)
    []

/-- Loop body of Clusters.filtering_clusters_by_percentage_to_fasta: emit
the sequence (only value[0] is written, no header) of every record whose
read count reaches total times the cutoff fraction. -/
def filterSeqLoop (total : ℕ) (minimun_perc : ℚ) : List ClusterRecord → List (List Char)
  | [] => []
  | r :: rest =>
    if (total : ℚ) * minimun_perc ≤ (r.read_count : ℚ) then
      r.sequence :: filterSeqLoop total minimun_perc rest
    else filterSeqLoop total minimun_perc rest

/-- First loop of filtering_clusters_by_percentage_to_fasta: the read
counts of the dict_fasta records summed. -/
def totalRecordReads (c : ClustersModel) : ℕ :=
  (c.records.map (fun r => r.read_count)).sum

/-- Clusters.filtering_clusters_by_percentage_to_fasta: first loop sums the
read counts of dict_fasta, second loop writes the qualifying sequences. -/
def filtering_clusters_by_percentage_to_fasta (c : ClustersModel) (minimun_perc : ℚ) :
    List (List Char) :=
  filterSeqLoop (totalRecordReads c) minimun_perc c.records

/-- Characters matched by the base class of the caret pattern in
Pileup.__init__. -/
def isBaseSym (c : Char) : Bool :=
  c = 'A' ∨ c = 'C' ∨ c = 'T' ∨ c = 'G' ∨ c = 'N' ∨
  c = 'a' ∨ c = 'c' ∨ c = 'g' ∨ c = 't' ∨ c = 'n' ∨ c = '.' ∨ c = ','

/-- Model of re.sub of the pattern caret, any one character, one base-class
character, replaced by that base-class character: non-overlapping leftmost
scan, advancing one character when the three-character window does not
match. -/
def subCaretF : ℕ → List Char → List Char
  | 0, l => l
  | _, [] => []
  | fuel + 1, c :: rest =>
    if c = '^' then
      match rest with
      | q :: b :: rest2 =>
        if isBaseSym b then b :: subCaretF fuel rest2
        else c :: subCaretF fuel (q :: b :: rest2)
      | _ => c :: subCaretF fuel rest
    else c :: subCaretF fuel rest

/-- The scan with enough fuel (every step consumes at least one input
character, so the input length suffices). -/
def subCaret (l : List Char) : List Char := subCaretF l.length l

/-- Model of re.sub of the dot-comma class by the reference base. -/
def subMatchSym (ref : Char) (l : List Char) : List Char :=
  l.map (fun c => if c = '.' ∨ c = ',' then ref else c)

/-- Per-line body of Pileup.__init__: the caret markup is stripped only
when the enumerate index n of the line is below min_reads_per_position;
otherwise only the match symbols are replaced and the string uppercased. -/
def storedBases (min_reads_per_position n : ℕ) (ref : Char) (bases : List Char) :
    List Char :=
  if n < min_reads_per_position then upperStr (subMatchSym ref (upperStr (subCaret bases)))
  else upperStr (subMatchSym ref bases)

/-- Model of pos.upper().count of a single base character. -/
def countBase (c : Char) (l : List Char) : ℕ := (upperStr l).count c

/-- The per-position total reads = A + C + T + G of nucleotide_diversity. -/
def baseReads (pos : List Char) : ℕ :=
  countBase 'A' pos + countBase 'C' pos + countBase 'T' pos + countBase 'G' pos

/-- The per-position statistic of nucleotide_diversity: the pairwise
product sum over the squared-minus-linear pair count halved. -/
def Di (pos : List Char) : ℚ :=
  let A := countBase 'A' pos
  let T := countBase 'T' pos
  let C := countBase 'C' pos
  let G := countBase 'G' pos
  ((A * C + A * G + A * T + C * G + C * T + G * T : ℕ) : ℚ) /
    ((((A + C + T + G) ^ 2 - (A + C + T + G) : ℕ) : ℚ) / 2)

/-- In-memory state built by Pileup.__init__: dict_pileup items (position
key paired with the stored base string) and the polymorphic_sites_dict
(initially empty). -/
structure PileupState where
  positions : List (List Char × List Char)
  polyDict : List (List Char × List Char)
deriving DecidableEq, Repr

/-- The nuc_diversity_list loop: the division is a ZeroDivisionError at the
first position whose read total is zero or one (zero denominator). -/
def diListE : List (List Char) → Except PyError (List ℚ)
  | [] => .ok []
  | p :: rest =>
    if baseReads p ≤ 1 then .error .zeroDivisionError
    else
      match diListE rest with
      | .error e => .error e
      | .ok l => .ok (Di p :: l)

/-- Pileup.nucleotide_diversity: mean of the per-position values over the
number of positions, rounded to four places; an empty collection divides by
len zero. -/
def nucleotide_diversity (s : PileupState) : Except PyError ℚ :=
  match diListE (s.positions.map (fun p => p.2)) with
  | .error e => .error e
  | .ok l =>
    if s.positions.length = 0 then .error .zeroDivisionError
    else .ok (pyRound 4 (l.sum / (s.positions.length : ℚ)))

/-- The two value_type strings accepted by polymorphic_sites and
number_haplotypes (any other string makes the loops a no-op). -/
inductive Metric where
  | percentage
  | number_reads
deriving DecidableEq, Repr

/-- The ascending sort of the four base counts [A, T, C, G] built by
polymorphic_sites. -/
def sortedCounts (v : List Char) : List ℕ :=
  [countBase 'A' v, countBase 'T' v, countBase 'C' v, countBase 'G' v].mergeSort
    (fun a b => decide (a ≤ b))

/-- The qualification test of polymorphic_sites: the third element of the
ascending sort strictly above the metric-dependent bound. -/
def qualifies (m : Metric) (cutoff : ℚ) (v : List Char) : Bool :=
  match m with
  | .percentage => decide ((((sortedCounts v).sum : ℚ) * cutoff) < ((sortedCounts v).getD 2 0 : ℚ))
  | .number_reads => decide (cutoff < ((sortedCounts v).getD 2 0 : ℚ))

/-- Python dict assignment on polymorphic_sites_dict. -/
def pyInsertPos (k v : List Char) : List (List Char × List Char) → List (List Char × List Char)
  | [] => [(k, v)]
  | x :: xs => if x.1 = k then (k, v) :: xs else x :: pyInsertPos k v xs

/-- The counting loop of polymorphic_sites, threading the counter and the
dict through the positions. -/
def polyLoop (m : Metric) (cutoff : ℚ) :
    List (List Char × List Char) → ℕ → List (List Char × List Char) →
    ℕ × List (List Char × List Char)
  | [], acc, d => (acc, d)
  | (k, v) :: rest, acc, d =>
    if qualifies m cutoff v then polyLoop m cutoff rest (acc + 1) (pyInsertPos k v d)
    else polyLoop m cutoff rest acc d

/-- Pileup.polymorphic_sites: returns the count and the state with the
updated polymorphic_sites_dict. -/
def polymorphic_sites (m : Metric) (cutoff : ℚ) (s : PileupState) : ℕ × PileupState :=
  let r := polyLoop m cutoff s.positions 0 s.polyDict
  (r.1, PileupState.mk s.positions r.2)

/-- A fresh Pileup state as __init__ leaves it: loaded positions and an
empty polymorphic_sites_dict. -/
def initPileup (positions : List (List Char × List Char)) : PileupState :=
  PileupState.mk positions []

/-- A sequence of polymorphic_sites calls, each threading the state left by
the previous one. -/
def runCalls : List (Metric × ℚ) → PileupState → PileupState
  | [], s => s
  | (m, cutoff) :: rest, s => runCalls rest (polymorphic_sites m cutoff s).2

/-- First loop of filtering_fastaclusters_by_percentage: total read count
summed over the header lines, AttributeError when a header lacks the size
annotation. -/
def sumSizes : List (List Char) → Except PyError ℕ
  | [] => .ok 0
  | l :: rest =>
    if startsGt l then
      match findSize l 0 with
      | none => .error .attributeError
      | some (_, n) =>
        match sumSizes rest with
        | .error e => .error e
        | .ok t => .ok (n + t)
    else sumSizes rest

/-- The header rewritten by filtering_fastaclusters_by_percentage: the
stripped original line, an underscore, the recomputed two-place percentage
and a percent sign. -/
def renderPctHeader (l : List Char) (n total : ℕ) : List Char :=
  rstrip l ++ ['_'] ++ pyFloatStr (pyRound 2 (((n : ℚ) / (total : ℚ)) * 100)) ++ ['%', '\n']

/-- Second loop of filtering_fastaclusters_by_percentage: write the
rewritten header and the following line for every qualifying cluster.  The
percentage recomputation divides by the total (ZeroDivisionError when it is
zero) and the sequence lookup past the last line is an IndexError. -/
def writeFilteredLoop (total : ℕ) (minimun_perc : ℚ) :
    List (List Char) → Except PyError (List (List Char))
  | [] => .ok []
  | l :: rest =>
    if startsGt l then
      match findSize l 0 with
      | none => .error .attributeError
      | some (_, n) =>
        if (total : ℚ) * minimun_perc ≤ (n : ℚ) then
          if total = 0 then .error .zeroDivisionError
          else
            match rest.head? with
            | none => .error .indexError
            | some seq =>
              match writeFilteredLoop total minimun_perc rest with
              | .error e => .error e
              | .ok out => .ok (renderPctHeader l n total :: seq :: out)
        else writeFilteredLoop total minimun_perc rest
    else writeFilteredLoop total minimun_perc rest

/-- filtering_fastaclusters_by_percentage: sum pass then write pass. -/
def filtering_fastaclusters_by_percentage (lines : List (List Char)) (minimun_perc : ℚ) :
    Except PyError (List (List Char)) :=
  match sumSizes lines with
  | .error e => .error e
  | .ok total => writeFilteredLoop total minimun_perc lines

/-- The parsed view of a clustered fasta the filter operates on: every
header line paired with its size annotation and the following sequence
line (used to state what the filter returns). -/
def headerPairs : List (List Char) → List (List Char × ℕ × List Char)
  | [] => []
  | l :: rest =>
    if startsGt l then
      match findSize l 0, rest.head? with
      | some (_, n), some seq => (l, n, seq) :: headerPairs rest
      | _, _ => headerPairs rest
    else headerPairs rest

/-- Well-formedness of a clustered fasta line list: every header line
carries a size annotation and is not the last line. -/
def wfLines : List (List Char) → Bool
  | [] => true
  | l :: rest => ((!startsGt l) || ((findSize l 0).isSome && !rest.isEmpty)) && wfLines rest

/-- The two-cluster fasta lines of the module docstring example. -/
def demoLines : List (List Char) :=
  [">ReadA;size=180_90.0%\n".toList, "AAATTTCCCGGG\n".toList,
   ">ReadB;size=20_10.0%\n".toList, "TTTAAATTTGGG\n".toList]

/-- The collection Clusters.__init__ builds from demoLines: 180 reads at
90.0 percent and 20 reads at 10.0 percent. -/
def demoClusters : ClustersModel :=
  ClustersModel.mk [180, 20] [90, 10]
    [ClusterRecord.mk "ReadA".toList "AAATTTCCCGGG\n".toList 90 180,
     ClusterRecord.mk "ReadB".toList "TTTAAATTTGGG\n".toList 10 20]

/-- Loading demoLines yields exactly demoClusters. -/
theorem demoClusters_loaded : clustersOfLines demoLines = .ok demoClusters := by
  norm_num +decide [clustersOfLines, parseEntries, startsGt, findSize, sizeTag, findPct,
    tryIntPart, tryFrac, floatOfPct, natOfDigits, demoLines, demoClusters, pyInsertRec]
  simp
  norm_num

/-- The pileup built from the single line of the spec scenario: position 1,
reference base T, raw bases AAAA followed by four commas, parsed by the
default path of Pileup.__init__. -/
def demoPileup : PileupState :=
  initPileup [("1".toList, storedBases 0 0 'T' "AAAA,,,,".toList)]

/-- The per-position loop of nucleotide_diversity succeeds and produces
exactly the list of per-position statistics when every position carries at
least two counted reads. -/
theorem diListE_ok (l : List (List Char)) (h : ∀ p ∈ l, 2 ≤ baseReads p) :
    diListE l = .ok (l.map Di) := by
  induction l with
  | nil => simp [diListE]
  | cons p rest ih =>
    have hp : 2 ≤ baseReads p := h p (List.mem_cons_self p rest)
    have hrest : diListE rest = .ok (rest.map Di) :=
      ih (fun q hq => h q (List.mem_cons_of_mem p hq))
    simp [diListE, hrest]
    omega

/-- C1: false of the code.  On the loaded docstring collection the export
writes the header greater-ReadA-underscore-size-equals-90.0-underscore-
90.0-percent: the size slot holds the percentage (value[1]) instead of the
read count, joined by an underscore instead of the semicolon the parser
requires, so re-parsing the exported lines raises AttributeError instead of
round-tripping name, sequence and read count. -/
theorem clusters_export_reparse_fails :
    clustersOfLines demoLines = .ok demoClusters ∧
    (clusters_object_to_fasta demoClusters).head? = some ">ReadA_size=90.0_90.0%\n".toList ∧
    clustersOfLines (clusters_object_to_fasta demoClusters) = .error .attributeError :=
  ⟨demoClusters_loaded, by decide, by decide⟩

/-- C2, counterexample: on the documented two-cluster collection (180
reads at 90.0 percent, 20 at 10.0) simpsons_index returns 0.82, which is
at least 0.14 away from the claimed 0.68, so the claimed conjunction of
approximate values is false. -/
theorem simpsons_index_not_068 :
    simpsons_index demoClusters = .ok (41 / 50) ∧
    (7 : ℚ) / 50 ≤ |(41 : ℚ) / 50 - 68 / 100| := by
  constructor
  · norm_num [simpsons_index, simpsons_D, demoClusters, pyRound, Int.floor_eq_iff]
  · rw [abs_of_nonneg] <;> norm_num

/-- C3: false of the code.  With the default min_reads_per_position of
zero, the line index is never below the threshold, so the caret markup is
never stripped: the first pileup line with raw bases caret-A-dot and
reference T is stored as caret-A-T and its A count is 1, although the
stripped and normalized bases are the single T with A count 0; the
stripping branch runs only when the line index is below the threshold. -/
theorem caret_markup_not_stripped :
    storedBases 0 0 'T' "^A.".toList = "^AT".toList ∧
    countBase 'A' (storedBases 0 0 'T' "^A.".toList) = 1 ∧
    countBase 'A' (upperStr (subMatchSym 'T' (subCaret "^A.".toList))) = 0 ∧
    storedBases 1 0 'T' "^A.".toList = "T".toList := by decide

/-- C6: false of the code.  A pileup whose only position has a single read
(or none at all, as with the asterisk deletion placeholder) makes
nucleotide_diversity raise the bare arithmetic ZeroDivisionError; no
distinguishable DegeneratePosition error is produced anywhere. -/
theorem nucleotide_diversity_degenerate_raises :
    nucleotide_diversity (initPileup [("1".toList, "A".toList)]) = .error .zeroDivisionError ∧
    nucleotide_diversity (initPileup [("2".toList, "*".toList)]) = .error .zeroDivisionError ∧
    PyError.zeroDivisionError ≠ PyError.degeneratePosition := by decide

/-- C4: nucleotide_diversity is the arithmetic mean of the per-position
statistic over all positions (all of them defined under the hypothesis),
rounded to four places; on the spec scenario position (raw bases AAAA and
four commas, reference T) the result is 16/28 rounded to 0.5714. -/
theorem nucleotide_diversity_mean (s : PileupState)
    (h : ∀ p ∈ s.positions, 2 ≤ baseReads p.2) (hne : s.positions ≠ []) :
    nucleotide_diversity s =
      .ok (pyRound 4 (((s.positions.map (fun p => Di p.2)).sum) / (s.positions.length : ℚ))) ∧
    nucleotide_diversity demoPileup = .ok (5714 / 10000) := by
  constructor
  · have hall : ∀ q ∈ s.positions.map (fun p => p.2), 2 ≤ baseReads q := by
      intro q hq
      obtain ⟨p, hp, rfl⟩ := List.mem_map.mp hq
      exact h p hp
    have hlen : s.positions.length ≠ 0 := by
      simpa [List.length_eq_zero] using hne
    simp [nucleotide_diversity, diListE_ok _ hall, hlen, List.map_map, Function.comp_def]
  · have hstore : storedBases 0 0 'T' ['A', 'A', 'A', 'A', ',', ',', ',', ','] =
        ['A', 'A', 'A', 'A', 'T', 'T', 'T', 'T'] := by decide
    have hA : countBase 'A' ['A', 'A', 'A', 'A', 'T', 'T', 'T', 'T'] = 4 := by decide
    have hT : countBase 'T' ['A', 'A', 'A', 'A', 'T', 'T', 'T', 'T'] = 4 := by decide
    have hC : countBase 'C' ['A', 'A', 'A', 'A', 'T', 'T', 'T', 'T'] = 0 := by decide
    have hG : countBase 'G' ['A', 'A', 'A', 'A', 'T', 'T', 'T', 'T'] = 0 := by decide
    norm_num [nucleotide_diversity, diListE, initPileup, demoPileup, Di, baseReads, hstore,
      hA, hT, hC, hG, pyRound, Int.floor_eq_iff]

/-- Witness for C4: the hypotheses hold at the spec scenario pileup, on
which the mean is 0.5714. -/
theorem nucleotide_diversity_mean_witness :
    (∀ p ∈ demoPileup.positions, 2 ≤ baseReads p.2) ∧ demoPileup.positions ≠ [] ∧
    nucleotide_diversity demoPileup = .ok (5714 / 10000) :=
  ⟨by decide, by decide, (nucleotide_diversity_mean demoPileup (by decide) (by decide)).2⟩

/-- Number of the four base counts that are non-zero at a position: the
reading of at least two distinct observed bases. -/
def numDistinctBases (v : List Char) : ℕ :=
  [countBase 'A' v, countBase 'T' v, countBase 'C' v, countBase 'G' v].countP
    (fun x => decide (0 < x))

/-- In the ascending sort of four naturals, the third element is positive
exactly when at least two of the four are positive. -/
theorem sorted_third_pos_iff (a b c d : ℕ) :
    0 < ([a, b, c, d].mergeSort (fun x y => decide (x ≤ y))).getD 2 0 ↔
      2 ≤ [a, b, c, d].countP (fun x => decide (0 < x)) := by
  have hperm := List.mergeSort_perm [a, b, c, d] (fun x y => decide (x ≤ y))
  have hsort := List.sorted_mergeSort' (α := ℕ) [a, b, c, d]
  rw [← hperm.countP_eq]
  rcases hL : [a, b, c, d].mergeSort (fun x y => decide (x ≤ y)) with
    _ | ⟨x0, _ | ⟨x1, _ | ⟨x2, _ | ⟨x3, _ | ⟨x4, t⟩⟩⟩⟩⟩ <;>
    rw [hL] at hperm <;> have hlen := hperm.length_eq <;> simp at hlen
  rw [hL] at hsort
  simp [List.sorted_cons] at hsort
  simp only [List.countP_cons, List.countP_nil, List.getD]
  simp only [decide_eq_true_eq]
  split_ifs <;> simp <;> omega

/-- The number_reads test at cutoff zero holds exactly at positions with at
least two distinct observed bases. -/
theorem qualifies_zero_iff (v : List Char) :
    qualifies .number_reads 0 v = true ↔ 2 ≤ numDistinctBases v := by
  unfold qualifies numDistinctBases sortedCounts
  rw [decide_eq_true_eq, Nat.cast_pos]
  exact sorted_third_pos_iff _ _ _ _

/-- The counter threaded through the polymorphic_sites loop counts exactly
the qualifying positions. -/
theorem polyLoop_fst (m : Metric) (cutoff : ℚ) (l : List (List Char × List Char)) :
    ∀ acc d, (polyLoop m cutoff l acc d).1 = acc + l.countP (fun p => qualifies m cutoff p.2) := by
  induction l with
  | nil => intro acc d; simp [polyLoop]
  | cons p rest ih =>
    intro acc d
    obtain ⟨k, v⟩ := p
    by_cases hq : qualifies m cutoff v = true
    · simp [polyLoop, hq, ih, List.countP_cons]; omega
    · simp [polyLoop, hq, ih, List.countP_cons]

/-- C5: polymorphic_sites returns exactly the number of positions whose
second-highest base count strictly exceeds the metric-dependent bound, and
with the number_reads metric at cutoff zero it counts exactly the positions
with at least two distinct observed bases. -/
theorem polymorphic_sites_counts (s : PileupState) (m : Metric) (cutoff : ℚ) :
    (polymorphic_sites m cutoff s).1 = s.positions.countP (fun p => qualifies m cutoff p.2) ∧
    (polymorphic_sites .number_reads 0 s).1 =
      s.positions.countP (fun p => decide (2 ≤ numDistinctBases p.2)) := by
  constructor
  · simp [polymorphic_sites, polyLoop_fst]
  · rw [show (polymorphic_sites .number_reads 0 s).1 =
        s.positions.countP (fun p => qualifies .number_reads 0 p.2) from by
          simp [polymorphic_sites, polyLoop_fst]]
    apply List.countP_congr
    intro p _
    cases hq : qualifies Metric.number_reads 0 p.2 with
    | true => simp [(qualifies_zero_iff p.2).mp hq]
    | false =>
      have h2 : ¬ 2 ≤ numDistinctBases p.2 := fun hh => by
        rw [(qualifies_zero_iff p.2).mpr hh] at hq
        cases hq
      simp [h2]

/-- Dict assignment adds the written key and keeps every existing key. -/
theorem mem_keys_pyInsertPos (k v a : List Char) (d : List (List Char × List Char)) :
    a ∈ (pyInsertPos k v d).map Prod.fst ↔ a = k ∨ a ∈ d.map Prod.fst := by
  induction d with
  | nil => simp [pyInsertPos]
  | cons x xs ih =>
    obtain ⟨x1, x2⟩ := x
    by_cases hx : x1 = k
    all_goals simp [pyInsertPos, hx] at ih ⊢
    all_goals aesop

/-- After one pass of the polymorphic_sites loop the dict keys are the
qualifying position keys united with the keys already present. -/
theorem mem_keys_polyLoop (m : Metric) (cutoff : ℚ) (l : List (List Char × List Char))
    (a : List Char) :
    ∀ acc d, a ∈ ((polyLoop m cutoff l acc d).2).map Prod.fst ↔
      (∃ v, (a, v) ∈ l ∧ qualifies m cutoff v = true) ∨ a ∈ d.map Prod.fst := by
  induction l with
  | nil => intro acc d; simp [polyLoop]
  | cons p rest ih =>
    intro acc d
    obtain ⟨k, v⟩ := p
    by_cases hq : qualifies m cutoff v = true
    · rw [show polyLoop m cutoff ((k, v) :: rest) acc d =
          polyLoop m cutoff rest (acc + 1) (pyInsertPos k v d) from by simp [polyLoop, hq]]
      rw [ih, mem_keys_pyInsertPos]
      simp only [List.mem_cons, Prod.mk.injEq]
      constructor
      · rintro (⟨w, hw, hwq⟩ | rfl | hd)
        · exact Or.inl ⟨w, Or.inr hw, hwq⟩
        · exact Or.inl ⟨v, Or.inl ⟨rfl, rfl⟩, hq⟩
        · exact Or.inr hd
      · rintro (⟨w, (⟨rfl, rfl⟩ | hw), hwq⟩ | hd)
        · exact Or.inr (Or.inl rfl)
        · exact Or.inl ⟨w, hw, hwq⟩
        · exact Or.inr (Or.inr hd)
    · rw [show polyLoop m cutoff ((k, v) :: rest) acc d =
          polyLoop m cutoff rest acc d from by simp [polyLoop, hq]]
      rw [ih]
      simp only [List.mem_cons, Prod.mk.injEq]
      constructor
      · rintro (⟨w, hw, hwq⟩ | hd)
        · exact Or.inl ⟨w, Or.inr hw, hwq⟩
        · exact Or.inr hd
      · rintro (⟨w, (⟨rfl, rfl⟩ | hw), hwq⟩ | hd)
        · exact absurd hwq hq
        · exact Or.inl ⟨w, hw, hwq⟩
        · exact Or.inr hd

/-- After a sequence of polymorphic_sites calls the dict keys are the union
over the calls of their qualifying keys, united with the starting keys. -/
theorem mem_keys_runCalls (calls : List (Metric × ℚ)) (a : List Char) :
    ∀ s : PileupState, a ∈ ((runCalls calls s).polyDict).map Prod.fst ↔
      (∃ m cutoff, (m, cutoff) ∈ calls ∧ ∃ v, (a, v) ∈ s.positions ∧ qualifies m cutoff v = true) ∨
      a ∈ s.polyDict.map Prod.fst := by
  induction calls with
  | nil => intro s; simp [runCalls]
  | cons c rest ih =>
    intro s
    obtain ⟨m, cutoff⟩ := c
    rw [show runCalls ((m, cutoff) :: rest) s =
        runCalls rest (polymorphic_sites m cutoff s).2 from rfl]
    rw [ih]
    simp only [polymorphic_sites, mem_keys_polyLoop, List.mem_cons, Prod.mk.injEq]
    constructor
    · rintro (⟨m2, c2, hmem, w, hw, hq⟩ | ⟨w, hw, hq⟩ | hd)
      · exact Or.inl ⟨m2, c2, Or.inr hmem, w, hw, hq⟩
      · exact Or.inl ⟨m, cutoff, Or.inl ⟨rfl, rfl⟩, w, hw, hq⟩
      · exact Or.inr hd
    · rintro (⟨m2, c2, (⟨rfl, rfl⟩ | hmem), w, hw, hq⟩ | hd)
      · exact Or.inr (Or.inl ⟨w, hw, hq⟩)
      · exact Or.inl ⟨m2, c2, hmem, w, hw, hq⟩
      · exact Or.inr (Or.inr hd)

/-- C10: starting from the freshly initialised (empty) dict, after any
sequence of polymorphic_sites calls the stored key set is exactly the union
of the qualifying position keys of all the calls made; in particular it
only ever grows, and a key that qualified under an earlier call stays
stored whether or not it qualifies under the latest cutoff. -/
theorem polymorphic_dict_union (positions : List (List Char × List Char))
    (calls : List (Metric × ℚ)) (a : List Char) :
    a ∈ ((runCalls calls (initPileup positions)).polyDict).map Prod.fst ↔
      ∃ m cutoff, (m, cutoff) ∈ calls ∧ ∃ v, (a, v) ∈ positions ∧ qualifies m cutoff v = true := by
  rw [mem_keys_runCalls]
  simp [initPileup]

/-- With a zero read total every loop term divides by zero (which the
rational model sends to zero), so the accumulated D is zero. -/
theorem simpsons_D_zero_of_sum_zero (c : ClustersModel) (h : c.number_reads.sum = 0) :
    simpsons_D c = 0 := by
  unfold simpsons_D
  rw [h]
  apply List.sum_eq_zero
  intro x hx
  obtain ⟨e, _, rfl⟩ := List.mem_map.mp hx
  norm_num

/-- A positive D forces a positive read total. -/
theorem sum_pos_of_simpsons_D_pos (c : ClustersModel) (hD : 0 < simpsons_D c) :
    0 < c.number_reads.sum := by
  rcases Nat.eq_zero_or_pos c.number_reads.sum with h | h
  · rw [simpsons_D_zero_of_sum_zero c h] at hD
    exact absurd hD (lt_irrefl 0)
  · exact h

/-- Summing the termwise quotients is the quotient of the sum. -/
theorem sum_map_div_natsum (l : List ℕ) (S : ℚ) :
    (l.map (fun (e : ℕ) => (e : ℚ) / S)).sum = (l.sum : ℚ) / S := by
  induction l with
  | nil => simp
  | cons x xs ih =>
    simp only [List.map_cons, List.sum_cons, ih]
    push_cast
    ring

/-- The Simpson sum of squared proportions is at most one. -/
theorem simpsons_D_le_one (c : ClustersModel) (hs : 0 < c.number_reads.sum) :
    simpsons_D c ≤ 1 := by
  unfold simpsons_D
  have hS : (0 : ℚ) < (c.number_reads.sum : ℚ) := by exact_mod_cast hs
  calc (c.number_reads.map (fun (e : ℕ) => ((e : ℚ) / (c.number_reads.sum : ℚ)) ^ 2)).sum
      ≤ (c.number_reads.map (fun (e : ℕ) => (e : ℚ) / (c.number_reads.sum : ℚ))).sum := by
        apply List.sum_le_sum
        intro e he
        have h1 : (e : ℚ) / (c.number_reads.sum : ℚ) ≤ 1 := by
          rw [div_le_one hS]
          exact_mod_cast List.single_le_sum (fun x _ => Nat.zero_le x) e he
        have h0 : (0 : ℚ) ≤ (e : ℚ) / (c.number_reads.sum : ℚ) := by positivity
        nlinarith
    _ = 1 := by
        rw [sum_map_div_natsum]
        exact div_self (ne_of_gt hS)

/-- Rounding half up at k places keeps a value of at least one at least
one. -/
theorem pyRound_one_le (k : ℕ) (x : ℚ) (h : 1 ≤ x) : 1 ≤ pyRound k x := by
  unfold pyRound
  rw [le_div_iff₀ (by positivity)]
  have hfl : (10 ^ k : ℤ) ≤ ⌊x * 10 ^ k + 1 / 2⌋ := by
    rw [Int.le_floor]
    push_cast
    nlinarith [pow_pos (show (0:ℚ) < 10 by norm_num) k]
  calc (1 : ℚ) * 10 ^ k = ((10 ^ k : ℤ) : ℚ) := by push_cast; ring
    _ ≤ ((⌊x * 10 ^ k + 1 / 2⌋ : ℤ) : ℚ) := by exact_mod_cast hfl

/-- C9, amended: with positive exact D, simpsons_reciprocal_index returns
the rounding of one over the exact (pre-rounding) D, and that value is at
least one.  (The original claim, relating it to one over the already
rounded simpsons_index value, is refuted below.) -/
theorem simpsons_reciprocal_amended (c : ClustersModel) (hD : 0 < simpsons_D c) :
    simpsons_reciprocal_index c = .ok (pyRound 2 (1 / simpsons_D c)) ∧
    1 ≤ pyRound 2 (1 / simpsons_D c) := by
  have hs := sum_pos_of_simpsons_D_pos c hD
  have hinv : 1 ≤ 1 / simpsons_D c := by
    rw [le_div_iff₀ hD, one_mul]
    exact simpsons_D_le_one c hs
  constructor
  · unfold simpsons_reciprocal_index
    rw [if_neg, if_neg]
    · exact ne_of_gt hD
    · rintro ⟨-, hz⟩
      omega
  · exact pyRound_one_le 2 _ hinv

/-- One hundred fifty clusters of one read each: the exact D is 1/150. -/
def demo150 : ClustersModel :=
  ClustersModel.mk (List.replicate 150 1) (List.replicate 150 (67 / 100))
    ((List.range 150).map (fun i => ClusterRecord.mk ('C' :: Nat.toDigits 10 i)
      "A\n".toList (67 / 100) 1))

/-- The exact Simpson sum of demo150. -/
theorem demo150_D : simpsons_D demo150 = 1 / 150 := by
  have h1 : (List.replicate 150 (1:ℕ)).sum = 150 := by
    simp [List.sum_replicate]
  unfold simpsons_D demo150
  simp only [h1]
  rw [List.map_replicate, List.sum_replicate]
  norm_num

/-- C9, counterexample: on 150 singleton clusters simpsons_index returns
0.01 (D = 1/150 rounded up) while simpsons_reciprocal_index returns 150.0,
and 150 differs from 1/0.01 = 100 by 50, far beyond the two-decimal
rounding precision, so the returned reciprocal does not equal one over the
returned index. -/
theorem simpsons_reciprocal_counterexample :
    simpsons_index demo150 = .ok (1 / 100) ∧
    simpsons_reciprocal_index demo150 = .ok 150 ∧
    ¬ |(150 : ℚ) - 1 / (1 / 100)| ≤ 1 / 2 := by
  have h1 : (List.replicate 150 (1:ℕ)).sum = 150 := by simp [List.sum_replicate]
  have hD := demo150_D
  refine ⟨?_, ?_, by rw [abs_of_nonneg] <;> norm_num⟩
  · unfold simpsons_index
    rw [if_neg, hD]
    · norm_num [pyRound, Int.floor_eq_iff]
    · unfold demo150
      simp [h1]
  · unfold simpsons_reciprocal_index
    rw [if_neg, if_neg, hD]
    · norm_num [pyRound, Int.floor_eq_iff]
    · rw [hD]
      norm_num
    · unfold demo150
      simp [h1]

/-- Witness for the amended C9 at the docstring collection, whose exact D
is 0.82. -/
theorem simpsons_reciprocal_amended_witness :
    0 < simpsons_D demoClusters ∧
    (simpsons_reciprocal_index demoClusters = .ok (pyRound 2 (1 / simpsons_D demoClusters)) ∧
      1 ≤ pyRound 2 (1 / simpsons_D demoClusters)) :=
  ⟨by norm_num [simpsons_D, demoClusters], simpsons_reciprocal_amended demoClusters
    (by norm_num [simpsons_D, demoClusters])⟩

/-- The write loop of the line-level filter emits exactly the rewritten
header and sequence of each qualifying cluster, in order. -/
theorem writeFilteredLoop_eq (total : ℕ) (minPerc : ℚ) (h0 : total ≠ 0) :
    ∀ lines : List (List Char), wfLines lines = true →
    writeFilteredLoop total minPerc lines =
      .ok (((headerPairs lines).filter
          (fun p => decide ((total : ℚ) * minPerc ≤ (p.2.1 : ℚ)))).flatMap
        (fun p => [renderPctHeader p.1 p.2.1 total, p.2.2])) := by
  intro lines
  induction lines with
  | nil => intro _; simp [writeFilteredLoop, headerPairs]
  | cons l rest ih =>
    intro hwf
    simp only [wfLines, Bool.and_eq_true, Bool.or_eq_true] at hwf
    obtain ⟨hhd, hrest⟩ := hwf
    have ihr := ih hrest
    by_cases hgt : startsGt l
    · have hex : (findSize l 0).isSome ∧ rest ≠ [] := by
        rcases hhd with h | ⟨h1, h2⟩
        · rw [hgt] at h; cases h
        · exact ⟨h1, by simpa [List.isEmpty_iff] using h2⟩
      obtain ⟨hfs, hne⟩ := hex
      obtain ⟨⟨st, n⟩, hfind⟩ := Option.isSome_iff_exists.mp hfs
      obtain ⟨seq, rest2, rfl⟩ := List.exists_cons_of_ne_nil hne
      rw [writeFilteredLoop, headerPairs]
      rw [hfind]
      by_cases hq : (total : ℚ) * minPerc ≤ (n : ℚ)
      · simp only [hgt, if_true, hq, h0, ite_true, ite_false, if_neg h0, List.head?_cons, ihr]
        simp [hq]
      · simp only [hgt, if_true, hq, ite_false, ihr]
        simp [hq]
    · rw [writeFilteredLoop, headerPairs]
      simp only [hgt, Bool.false_eq_true, if_false, ihr]

/-- The dict-level filter loop keeps exactly the sequences of the records
whose read count reaches the bound. -/
theorem filterSeqLoop_eq (total : ℕ) (minPerc : ℚ) (l : List ClusterRecord) :
    filterSeqLoop total minPerc l =
      (l.filter (fun r => decide ((total : ℚ) * minPerc ≤ (r.read_count : ℚ)))).map
        (fun r => r.sequence) := by
  induction l with
  | nil => simp [filterSeqLoop]
  | cons r rest ih =>
    by_cases hq : (total : ℚ) * minPerc ≤ (r.read_count : ℚ) <;>
      simp [filterSeqLoop, hq, ih]

/-- C8, amended: the relative-abundance filter selects exactly the
clusters whose read count is at least total times the cutoff fraction and
is a pure function of the loaded collection; at cutoff zero it selects
every cluster.  The line-level function returns the selected records as
header and sequence pairs; the dict-level method emits only the sequences
of the selected records (the original claim's full name, read count and
percentage survive only in the line-level output; see the counterexample
below). -/
theorem filtering_by_relative_abundance (lines : List (List Char)) (minPerc : ℚ) (total : ℕ)
    (hsum : sumSizes lines = .ok total) (h0 : total ≠ 0) (hwf : wfLines lines = true) :
    filtering_fastaclusters_by_percentage lines minPerc =
      .ok (((headerPairs lines).filter
          (fun p => decide ((total : ℚ) * minPerc ≤ (p.2.1 : ℚ)))).flatMap
        (fun p => [renderPctHeader p.1 p.2.1 total, p.2.2])) ∧
    filtering_fastaclusters_by_percentage lines 0 =
      .ok ((headerPairs lines).flatMap (fun p => [renderPctHeader p.1 p.2.1 total, p.2.2])) ∧
    (∀ c : ClustersModel, filtering_clusters_by_percentage_to_fasta c minPerc =
      (c.records.filter (fun r =>
        decide ((totalRecordReads c : ℚ) * minPerc ≤ (r.read_count : ℚ)))).map
        (fun r => r.sequence)) := by
  refine ⟨?_, ?_, ?_⟩
  · unfold filtering_fastaclusters_by_percentage
    rw [hsum]
    exact writeFilteredLoop_eq total minPerc h0 lines hwf
  · unfold filtering_fastaclusters_by_percentage
    rw [hsum]
    show writeFilteredLoop total 0 lines = _
    rw [writeFilteredLoop_eq total 0 h0 lines hwf]
    congr 1
    congr 1
    apply List.filter_eq_self.mpr
    intro p _
    simp
  · intro c
    unfold filtering_clusters_by_percentage_to_fasta
    exact filterSeqLoop_eq _ minPerc c.records

/-- A two-cluster fasta for exercising the filter: sizes three and one. -/
def demoFilterLines : List (List Char) :=
  [">A;size=3\n".toList, "AAA\n".toList, ">B;size=1\n".toList, "CCC\n".toList]

/-- Witness for C8 on demoFilterLines at cutoff one half. -/
theorem filtering_by_relative_abundance_witness :
    sumSizes demoFilterLines = .ok 4 ∧ (4 : ℕ) ≠ 0 ∧ wfLines demoFilterLines = true ∧
    (filtering_fastaclusters_by_percentage demoFilterLines (1 / 2) =
      .ok (((headerPairs demoFilterLines).filter
          (fun p => decide (((4 : ℕ) : ℚ) * (1 / 2) ≤ (p.2.1 : ℚ)))).flatMap
        (fun p => [renderPctHeader p.1 p.2.1 4, p.2.2])) ∧
     filtering_fastaclusters_by_percentage demoFilterLines 0 =
      .ok ((headerPairs demoFilterLines).flatMap (fun p => [renderPctHeader p.1 p.2.1 4, p.2.2])) ∧
     (∀ c : ClustersModel, filtering_clusters_by_percentage_to_fasta c (1 / 2) =
      (c.records.filter (fun r =>
        decide ((totalRecordReads c : ℚ) * (1 / 2) ≤ (r.read_count : ℚ)))).map
        (fun r => r.sequence))) :=
  ⟨by decide, by decide, by decide,
    filtering_by_relative_abundance demoFilterLines (1 / 2) 4 (by decide) (by decide) (by decide)⟩

/-- e to the fifth is below two hundred. -/
theorem exp_five_lt : Real.exp 5 < 200 := by
  have h5 : Real.exp 5 = Real.exp 1 ^ 5 := by
    rw [← Real.exp_nat_mul]
    norm_num
  rw [h5]
  calc Real.exp 1 ^ 5 < 2.7182818286 ^ 5 :=
        pow_lt_pow_left₀ Real.exp_one_lt_d9 (le_of_lt (Real.exp_pos 1)) (by norm_num)
    _ < 200 := by norm_num

/-- ln 200 exceeds five. -/
theorem five_lt_log_two_hundred : 5 < Real.log 200 := by
  rw [Real.lt_log_iff_exp_lt (by norm_num : (0:ℝ) < 200)]
  exact exp_five_lt

/-- ln 10 is below three. -/
theorem log_ten_lt_three : Real.log 10 < 3 := by
  rw [Real.log_lt_iff_lt_exp (by norm_num : (0:ℝ) < 10)]
  have h3 : Real.exp 3 = Real.exp 1 ^ 3 := by
    rw [← Real.exp_nat_mul]
    norm_num
  rw [h3]
  calc (10:ℝ) < 2.7182818283 ^ 3 := by norm_num
    _ < Real.exp 1 ^ 3 :=
        pow_lt_pow_left₀ Real.exp_one_gt_d9 (by norm_num) (by norm_num)

/-- C2, amended: on the documented two-cluster collection simpsons_index
returns 0.82 exactly, and shannon_entropy(0) returns a value between 0 and
0.081 (the exact value is minus (0.9 ln 0.9 + 0.1 ln 0.1) over ln 200,
about 0.061, rounded to three places), far from the claimed 0.469. -/
theorem simpsons_demo_values :
    simpsons_index demoClusters = .ok (41 / 50) ∧
    ∃ r : ℝ, shannon_entropy demoClusters 0 = .ok r ∧ 0 ≤ r ∧ r ≤ 81 / 1000 := by
  constructor
  · norm_num [simpsons_index, simpsons_D, demoClusters, pyRound, Int.floor_eq_iff]
  · have hfil : demoClusters.records.filter (fun r => decide ((0 : ℚ) ≤ r.percentage)) =
        demoClusters.records := by decide
    refine ⟨pyRoundR 3 (-((9 / 10 * Real.log (9 / 10) + 1 / 10 * Real.log (1 / 10)) /
      Real.log 200)), ?_, ?_, ?_⟩
    · rw [shannon_entropy, hfil]
      norm_num [demoClusters]
    · have hval : -((9 / 10 * Real.log (9 / 10) + 1 / 10 * Real.log (1 / 10)) / Real.log 200) =
          (9 / 10 * Real.log (10 / 9) + 1 / 10 * Real.log 10) / Real.log 200 := by
        rw [show ((9:ℝ)/10) = ((10:ℝ)/9)⁻¹ by norm_num, Real.log_inv,
          show ((1:ℝ)/10) = ((10:ℝ))⁻¹ by norm_num, Real.log_inv]
        ring
      have hnum_pos : 0 < 9 / 10 * Real.log (10 / 9) + 1 / 10 * Real.log 10 := by
        have h1 := Real.log_pos (show (1:ℝ) < 10/9 by norm_num)
        have h2 := Real.log_pos (show (1:ℝ) < 10 by norm_num)
        nlinarith
      have hS_pos : 0 ≤ -((9 / 10 * Real.log (9 / 10) + 1 / 10 * Real.log (1 / 10)) /
          Real.log 200) := by
        rw [hval]
        have hL := five_lt_log_two_hundred
        positivity
      unfold pyRoundR
      apply div_nonneg _ (by norm_num)
      have : (0:ℤ) ≤ ⌊-((9 / 10 * Real.log (9 / 10) + 1 / 10 * Real.log (1 / 10)) /
          Real.log 200) * 10 ^ 3 + 1 / 2⌋ := by
        apply Int.floor_nonneg.mpr
        nlinarith
      exact_mod_cast this
    · have hval : -((9 / 10 * Real.log (9 / 10) + 1 / 10 * Real.log (1 / 10)) / Real.log 200) =
          (9 / 10 * Real.log (10 / 9) + 1 / 10 * Real.log 10) / Real.log 200 := by
        rw [show ((9:ℝ)/10) = ((10:ℝ)/9)⁻¹ by norm_num, Real.log_inv,
          show ((1:ℝ)/10) = ((10:ℝ))⁻¹ by norm_num, Real.log_inv]
        ring
      have hnum_le : 9 / 10 * Real.log (10 / 9) + 1 / 10 * Real.log 10 ≤ 2 / 5 := by
        have h1 : Real.log ((10:ℝ)/9) ≤ 1/9 := by
          have := Real.log_le_sub_one_of_pos (show (0:ℝ) < 10/9 by norm_num)
          linarith
        have h2 := log_ten_lt_three
        nlinarith
      have hnum_pos : 0 < 9 / 10 * Real.log (10 / 9) + 1 / 10 * Real.log 10 := by
        have h1 := Real.log_pos (show (1:ℝ) < 10/9 by norm_num)
        have h2 := Real.log_pos (show (1:ℝ) < 10 by norm_num)
        nlinarith
      have hL := five_lt_log_two_hundred
      have hS_le : -((9 / 10 * Real.log (9 / 10) + 1 / 10 * Real.log (1 / 10)) /
          Real.log 200) ≤ 2 / 25 := by
        rw [hval]
        calc (9 / 10 * Real.log (10 / 9) + 1 / 10 * Real.log 10) / Real.log 200
            ≤ (2 / 5) / 5 := div_le_div₀ (by norm_num) hnum_le (by norm_num) (le_of_lt hL)
          _ = 2 / 25 := by norm_num
      unfold pyRoundR
      have hfl : ⌊-((9 / 10 * Real.log (9 / 10) + 1 / 10 * Real.log (1 / 10)) /
          Real.log 200) * 10 ^ 3 + 1 / 2⌋ ≤ 81 := by
        have : ⌊-((9 / 10 * Real.log (9 / 10) + 1 / 10 * Real.log (1 / 10)) /
            Real.log 200) * 10 ^ 3 + 1 / 2⌋ < 81 := by
          apply Int.floor_lt.mpr
          push_cast
          nlinarith
        omega
      have hcast : ((⌊-((9 / 10 * Real.log (9 / 10) + 1 / 10 * Real.log (1 / 10)) /
          Real.log 200) * 10 ^ 3 + 1 / 2⌋ : ℤ) : ℝ) ≤ 81 := by exact_mod_cast hfl
      rw [div_le_div_iff₀ (by norm_num) (by norm_num)]
      nlinarith

/-- C7: false of the code.  With the 50 cutoff the restricted set of the
docstring collection is the single 90-percent cluster and shannon_entropy
silently returns 0.0 (no error of any kind); with the 101 cutoff the
restricted set is empty and the call dies with the bare ValueError from
math.log of zero.  Neither case surfaces an explicit, distinguishable
error. -/
theorem shannon_entropy_no_explicit_error :
    shannon_entropy demoClusters 50 = .ok 0 ∧
    shannon_entropy demoClusters 101 = .error .valueError := by
  constructor
  · have hfil : demoClusters.records.filter (fun r => decide ((50 : ℚ) ≤ r.percentage)) =
        [ClusterRecord.mk "ReadA".toList "AAATTTCCCGGG\n".toList 90 180] := by decide
    rw [shannon_entropy]
    rw [hfil]
    norm_num [pyRoundR, Int.floor_eq_zero_iff, Set.mem_Ico]
  · have hfil : demoClusters.records.filter (fun r => decide ((101 : ℚ) ≤ r.percentage)) = [] := by
      decide
    rw [shannon_entropy]
    rw [hfil]
    norm_num

/-- C8, counterexample: the dict-level filter at cutoff zero on the
docstring collection writes exactly the two bare sequence lines of
dict_fasta (only value[0] per record), with no header character anywhere,
so the emitted output carries no name, read count or percentage at all:
re-parsing it yields the empty collection instead of the full original set
of records. -/
theorem filtering_method_drops_records :
    filtering_clusters_by_percentage_to_fasta demoClusters 0 =
      ["AAATTTCCCGGG\n".toList, "TTTAAATTTGGG\n".toList] ∧
    (filtering_clusters_by_percentage_to_fasta demoClusters 0).flatten.contains '>' = false ∧
    clustersOfLines (filtering_clusters_by_percentage_to_fasta demoClusters 0) =
      .ok (ClustersModel.mk [] [] []) := by
  have hout : filtering_clusters_by_percentage_to_fasta demoClusters 0 =
      ["AAATTTCCCGGG\n".toList, "TTTAAATTTGGG\n".toList] := by
    rw [show filtering_clusters_by_percentage_to_fasta demoClusters 0 =
        filterSeqLoop (totalRecordReads demoClusters) 0 demoClusters.records from rfl]
    rw [filterSeqLoop_eq]
    norm_num [demoClusters]
  refine ⟨hout, ?_, ?_⟩
  · rw [hout]
    decide
  · rw [hout]
    decide

end QuasisPycies
